import Mathlib

/-!
Verification development for the node-cache-redis connection pool and store.

The JavaScript/TypeScript sources (`RedisStore.ts`, which contains both the
store facade and the `RedisConnectionPool` prototype) are shallowly embedded
below.  Asynchronous straight-line code is modelled as pure state-passing
functions; settled promises are modelled by their outcome (`Except`); the
backend (redis server, `generic-pool`, `retry-as-promised`) is modelled by
explicit oracles describing the outcome of each request.
-/

namespace NodeCacheRedis

/-- A backend error as surfaced by node_redis / the pool factory.  `code`
models the `error.code` property (for example `"NOSCRIPT"`), `name` models
`error.name` (for example `"CONN_FAILED"`). -/
structure RErr where
  code : String
  name : String
deriving DecidableEq

/-- The error kind checked by `_executeDeleteAll` (`error.code === 'NOSCRIPT'`). -/
def RErr.isNoScript (e : RErr) : Bool := e.code = "NOSCRIPT"

instance {ε α : Type} [DecidableEq ε] [DecidableEq α] : DecidableEq (Except ε α) := fun x y =>
  match x, y with
  | Except.ok a, Except.ok b =>
    if h : a = b then isTrue (by rw [h]) else isFalse (by intro hh; cases hh; exact h rfl)
  | Except.ok _, Except.error _ => isFalse (by intro hh; cases hh)
  | Except.error _, Except.ok _ => isFalse (by intro hh; cases hh)
  | Except.error a, Except.error b =>
    if h : a = b then isTrue (by rw [h]) else isFalse (by intro hh; cases hh; exact h rfl)

/-! ## Cached delete-all script state (`deleteScriptPromise`)

`RedisStore` caches the promise of the `SCRIPT LOAD` command in the mutable
field `deleteScriptPromise : Promise<any> | null`.  We model the field by the
settled outcome of the cached promise (`none` = the JS `null`), and count the
`SCRIPT LOAD` commands actually issued to the backend in `loadCount` so that
coalescing can be stated.  The backend answer to the i-th load request is
given by the oracle `loadOutcome i`. -/

structure ScriptState where
  /-- `this.deleteScriptPromise`: `none` is the JS `null` (not loaded);
  `some r` is a cached promise settled with outcome `r`. -/
  deleteScriptPromise : Option (Except RErr String)
  /-- instrumentation: number of `SCRIPT LOAD` commands issued so far. -/
  loadCount : Nat
deriving DecidableEq

/-- Initial state: `deleteScriptPromise = null`, no load issued yet. -/
def ScriptState.init : ScriptState := { deleteScriptPromise := none, loadCount := 0 }

/-- Embedding of `RedisStore._loadDeleteAllScript`: if no promise is cached,
issue `SCRIPT LOAD` (the check and the assignment happen with no suspension
point in between, so the step is atomic in the single-threaded JS runtime)
and cache it; otherwise return the cached promise. -/
def loadDeleteAllScript (loadOutcome : Nat → Except RErr String) (s : ScriptState) :
    Except RErr String × ScriptState :=
  match s.deleteScriptPromise with
  | some r => (r, s)
  | none =>
    let r := loadOutcome s.loadCount
    (r, { deleteScriptPromise := some r, loadCount := s.loadCount + 1 })

/-- `n` successive callers reaching `_loadDeleteAllScript` (the claims about
coalescing quantify over such sequences). -/
def iterateLoad (loadOutcome : Nat → Except RErr String) : Nat → ScriptState → ScriptState
  | 0, s => s
  | n + 1, s => iterateLoad loadOutcome n (loadDeleteAllScript loadOutcome s).2

/-- Embedding of `RedisStore._executeDeleteAll`.  The `try`/`catch` in the
source wraps only `await this._loadDeleteAllScript()`; the final
`super.sendCommand('EVALSHA', [sha1, 0, pattern, 1000])` is outside of it.
A caught load error with `code === 'NOSCRIPT'` nulls the cached promise and
recurses; any other load error is rethrown.  The self-recursion is bounded
here by `fuel`; a result of `none` means the call did not terminate within
`fuel` recursive invocations.  `execOutcome sha` is the backend's answer to
`EVALSHA sha`; the returned list collects the shas passed to `EVALSHA`, in
order, so that retries are observable. -/
def executeDeleteAll (loadOutcome : Nat → Except RErr String)
    (execOutcome : String → Except RErr Nat) :
    Nat → ScriptState → Option (Except RErr Nat) × ScriptState × List String
  | 0, s => (none, s, [])
  | fuel + 1, s =>
    match loadDeleteAllScript loadOutcome s with
    | (Except.error e, s1) =>
      if e.isNoScript then
        executeDeleteAll loadOutcome execOutcome fuel
          { s1 with deleteScriptPromise := none }
      else (some (Except.error e), s1, [])
    | (Except.ok sha, s1) => (some (execOutcome sha), s1, [sha])

/-! ## TTL validation and the `set` command (`validatedTtl`, `RedisStore.set`)

`validatedTtl` lives in the repository's `helpers` module, which is not part
of the provided sources. -/

/-- Modelled from the spec: `validatedTtl` from the missing `helpers` module.
Per the spec, a time-to-live is "validated to be a positive integer or
absent — invalid values fail fast at configuration time": an absent ttl
falls back to the given default, a positive integer is returned unchanged,
anything else raises a configuration error. -/
def validatedTtl (ttl : Option Int) (fallback : Option Nat) : Except RErr (Option Nat) :=
  match ttl with
  | none => Except.ok fallback
  | some t => if 0 < t then Except.ok (some t.toNat) else Except.error ⟨"INVALID_TTL", "Error"⟩

/-- The constructor stores `this.defaulTtlInS = validatedTtl(defaulTtlInS)`
(no fallback). -/
def mkDefaultTtl (defaulTtlInS : Option Int) : Except RErr (Option Nat) :=
  validatedTtl defaulTtlInS none

/-- Embedding of the command-selection logic of `RedisStore.set` (the value
has already been encoded to the string `encoded`):
`ttl = validatedTtl(ttlInSeconds, this.defaulTtlInS)`, then
`if (ttl) sendCommand('setex', [key, ttl, str]) else sendCommand('set', [key, str])`.
JS truthiness of the number `ttl` is `ttl ≠ 0` (with `undefined` falsy). -/
def setCommandFor (defaulTtlInS : Option Nat) (key : String) (encoded : String)
    (ttlInSeconds : Option Int) : Except RErr (String × List String) :=
  match validatedTtl ttlInSeconds defaulTtlInS with
  | Except.error e => Except.error e
  | Except.ok none => Except.ok ("set", [key, encoded])
  | Except.ok (some ttl) =>
    if ttl ≠ 0 then Except.ok ("setex", [key, toString ttl, encoded])
    else Except.ok ("set", [key, encoded])

/-! ## Connection factory (`factory.create` with `retry-as-promised`)

`factory.create` closes over a counter `createAttempts`; each invocation of
the retried function increments it.  On invocation `n` with `n > 3` it
*resolves* (not rejects) an `Error` object whose `name` is `'CONN_FAILED'`;
otherwise it attempts `create(redisOptions)`, which resolves a client or
rejects.  `retry-as-promised` with `max: 10` re-invokes the function on
rejection, up to 10 invocations.  The oracle `ok n` says whether the n-th
establishment attempt would succeed. -/

/-- The terminal error object produced after the attempt cap is exceeded
(`err.name = 'CONN_FAILED'`). -/
def connFailedErr : RErr := { code := "", name := "CONN_FAILED" }

/-- What the pool's factory hands back: either a live client (tagged with the
establishment attempt that produced it) or an `Error` object resolved as a
value. -/
inductive CreateResult
  | conn (n : Nat)
  | errValue (e : RErr)
deriving DecidableEq

/-- One invocation of the function passed to `retry-as-promised`, with
`createAttempts` already incremented to `n`.  `none` models a rejection
(which the retry wrapper retries); `some r` models a resolution. -/
def factoryAttempt (ok : Nat → Bool) (n : Nat) : Option CreateResult :=
  if 3 < n then some (CreateResult.errValue connFailedErr)
  else if ok n then some (CreateResult.conn n) else none

/-- `retry-as-promised` with `max: 10`: invoke `f` with invocation numbers
`n, n+1, ...` until it resolves, for at most `left` invocations; if every
invocation rejects the overall promise rejects (`none`). -/
def retryAsPromised (f : Nat → Option CreateResult) : Nat → Nat → Option CreateResult
  | 0, _ => none
  | left + 1, n =>
    match f n with
    | some r => some r
    | none => retryAsPromised f left (n + 1)

/-- Embedding of `factory.create`: the retry wrapper applied to the counted
attempt function, starting at invocation 1 with a budget of 10. -/
def factoryCreate (ok : Nat → Bool) : Option CreateResult :=
  retryAsPromised (factoryAttempt ok) 10 1

/-! ## Connection pool, `sendCommand` and `acquire`

The pool (`generic-pool`) owns an available set and an in-use set of items.
Because the factory resolves its terminal error as a *value*, a pool item is
either a live connection (identified by a numeric id; its currently selected
database index is tracked in a separate map, since selection mutates the
client object, not the pool's bookkeeping) or an `Error` object.  A single
acquire step takes the first available item. -/

inductive PoolItem
  | conn (id : Nat)
  | errValue (e : RErr)
deriving DecidableEq

structure PoolState where
  available : List PoolItem
  inUse : List PoolItem
deriving DecidableEq

/-- `generic-pool`'s `pool.acquire(priority)`: hand out the next available
item, marking it in use.  `none` models the caller being queued (no item
available); extra arguments beyond the priority are ignored by the library.
-/
def poolAcquire (st : PoolState) : Option (PoolItem × PoolState) :=
  match st.available with
  | [] => none
  | it :: rest => some (it, { available := rest, inUse := st.inUse ++ [it] })

/-- `generic-pool`'s `pool.release(conn)`: the item returns to the available
set and stops being tracked as in use. -/
def poolRelease (it : PoolItem) (st : PoolState) : PoolState :=
  { available := st.available ++ [it], inUse := st.inUse.erase it }

/-- Commands observable on the wire, per connection.  A `send` event records
the database index the connection is selected on at the moment the command
is sent. -/
inductive WireEv
  | send (connId : Nat) (atDb : Nat) (command : String)
  | select (connId : Nat) (db : Nat)
deriving DecidableEq

/-- Result of `RedisPool.prototype.sendCommand` as seen by the caller. -/
inductive SendResult
  | ok (r : String)
  /-- the command rejected; the error is rethrown after the release. -/
  | err (e : RErr)
  /-- the acquired item was an `Error` value: `conn.send_command` is
  undefined, so `util.promisify` throws before the `try` block is entered
  (and no release happens). -/
  | promisifyThrow
deriving DecidableEq

/-- Embedding of `RedisPool.prototype.sendCommand`.  The source calls
`this.pool.acquire(this.poolOptions.priorityRange || 1, this.redisOptions.db)`
— that is `generic-pool`'s `acquire`, whose signature takes only the
priority, so the `configuredDb` argument is passed but ignored and no
database-selection command is ever issued on this path.  On a live
connection the command is sent exactly once; the connection is released on
the success path and on the failure path, and a command error is rethrown
unchanged after the release.  `dbOf` maps a connection id to its currently
selected database index; `cmdOutcome` is the backend's answer on the given
connection. -/
def sendCommand (configuredDb : Option Nat) (cmdOutcome : Nat → Except RErr String)
    (commandName : String) (dbOf : Nat → Nat) (st : PoolState) :
    Option (SendResult × PoolState × List WireEv) :=
  match poolAcquire st with
  | none => none
  | some (PoolItem.errValue _, st1) => some (SendResult.promisifyThrow, st1, [])
  | some (PoolItem.conn id, st1) =>
    match cmdOutcome id with
    | Except.ok r =>
      some (SendResult.ok r, poolRelease (PoolItem.conn id) st1,
        [WireEv.send id (dbOf id) commandName])
    | Except.error e =>
      some (SendResult.err e, poolRelease (PoolItem.conn id) st1,
        [WireEv.send id (dbOf id) commandName])

/-- Result of `RedisPool.prototype.acquire` as seen by the caller. -/
inductive AcquireResult
  | ok (id : Nat)
  | thrown (e : RErr)
deriving DecidableEq

/-- JS truthiness of the `db` argument (`if (db)`): `undefined` and `0` are
falsy. -/
def truthyDb : Option Nat → Bool
  | none => false
  | some d => d ≠ 0

/-- Embedding of `RedisPool.prototype.acquire` (with `selectDB`).  After
`this.pool.acquire(priority)`, an `Error`-valued item is thrown; otherwise,
when `db` is truthy, `selectDB(client, db)` issues a `select` on the
connection — on selection failure the promise rejects and control leaves
`acquire` with the connection still tracked as in use (no release call
exists on this path).  `selectOutcome id d` is `none` on success and
`some e` when the backend rejects the selection.  Returns the result, the
pool state, the updated db map and the wire events. -/
def rpAcquire (selectOutcome : Nat → Nat → Option RErr) (db : Option Nat)
    (dbOf : Nat → Nat) (st : PoolState) :
    Option (AcquireResult × PoolState × (Nat → Nat) × List WireEv) :=
  match poolAcquire st with
  | none => none
  | some (PoolItem.errValue e, st1) => some (AcquireResult.thrown e, st1, dbOf, [])
  | some (PoolItem.conn id, st1) =>
    match db with
    | some d =>
      if d ≠ 0 then
        match selectOutcome id d with
        | some e => some (AcquireResult.thrown e, st1, dbOf, [WireEv.select id d])
        | none =>
          some (AcquireResult.ok id, st1, fun j => if j = id then d else dbOf j,
            [WireEv.select id d])
      else some (AcquireResult.ok id, st1, dbOf, [])
    | none => some (AcquireResult.ok id, st1, dbOf, [])

/-! ## The delete-all Lua script

`deleteAll` executes (via `EVALSHA sha 0 pattern 1000`) the script loaded by
`_loadDeleteAllScript`: starting from cursor `"0"`, it repeatedly calls
`SCAN cursor match ARGV[1] count ARGV[2]`, `UNLINK`s every returned key
adding each `UNLINK` reply to `deleted`, and stops when the returned cursor
is `"0"` again; it returns `deleted`.

The backend keyspace is modelled as a list of keys.  `SCAN` is modelled over
a snapshot of the keyspace taken at the start (redis guarantees a full
traversal of the keys present throughout; the script only ever removes keys
the scan has already returned, so the snapshot semantics coincides): one
scan step returns the keys among the next `count` snapshot entries that
match the pattern, and the advanced cursor; the returned cursor is the
origin sentinel exactly when the snapshot is exhausted.  The glob pattern is
modelled by the predicate `p` it denotes (pattern matching itself is
performed by the backend, an external collaborator). -/

/-- `redis.call("UNLINK", key)`: remove the key, replying 1 if it was
present and 0 otherwise. -/
def unlink {K : Type} [DecidableEq K] (store : List K) (k : K) : Nat × List K :=
  if k ∈ store then (1, store.erase k) else (0, store)

/-- The script's inner `for i, key in ipairs(keys)` loop: `UNLINK` each
returned key, accumulating the sum of the replies. -/
def unlinkAll {K : Type} [DecidableEq K] : List K → List K → Nat × List K
  | [], store => (0, store)
  | k :: ks, store =>
    let p1 := unlink store k
    let p2 := unlinkAll ks p1.2
    (p1.1 + p2.1, p2.2)

/-- The script's `repeat ... until done` loop.  `toScan` is the not yet
scanned part of the snapshot, `store` the current keyspace; one iteration
scans the next `count` snapshot entries, unlinks the matching ones, and the
loop ends when the scan reports the cursor back at the origin (snapshot
exhausted).  Returns `deleted` and the final keyspace.  The chunk bound
`count` is positive (the source passes the literal 1000). -/
def deleteAllLoop {K : Type} [DecidableEq K] (p : K → Bool) (count : Nat) (hc : 0 < count) :
    List K → List K → Nat × List K
  | toScan, store =>
    let chunk := (toScan.take count).filter p
    let rest := toScan.drop count
    let step := unlinkAll chunk store
    if h : rest = [] then step
    else
      have hlen : rest.length < toScan.length := by
        have hpos : 0 < rest.length := List.length_pos.mpr h
        have : rest.length = toScan.length - count := List.length_drop count toScan
        omega
      let more := deleteAllLoop p count hc rest step.2
      (step.1 + more.1, more.2)
termination_by toScan _ => toScan.length

/-- Embedding of the whole `deleteAll` script execution
(`EVALSHA sha 0 pattern 1000`): run the scan loop with chunk size 1000 over
the keyspace, starting with the full snapshot. -/
def deleteAllScript {K : Type} [DecidableEq K] (p : K → Bool) (store : List K) :
    Nat × List K :=
  deleteAllLoop p 1000 (by decide) store store

/-! ## JSON values, `JSON.stringify` / `JSON.parse`, and `set`/`get` encoding

`RedisStore.set` encodes the value with
`Array.isArray(value) || isJSON(value, true) ? JSON.stringify(value) : value`
and `RedisStore.get` applies `JSON.parse` to the stored string, returning
the raw string when parsing throws.  We model JS values that can reach these
paths as `JSVal` (numbers as integers), and the runtime's `JSON.stringify` /
`JSON.parse` as an executable printer and recursive-descent parser over it.
The printer emits no whitespace (as `JSON.stringify` does) and escapes
quotes and backslashes; the parser accepts exactly that fragment (whitespace
handling and the remaining escape forms are never exercised by the store's
own outputs). -/

inductive JSVal
  | jnull
  | jbool (b : Bool)
  | jnum (n : Int)
  | jstr (s : String)
  | jarr (elems : List JSVal)
  | jobj (fields : List (String × JSVal))

/-- The decimal digit character for `d < 10`. -/
def digitChar (d : Nat) : Char := Char.ofNat (48 + d)

/-- Decimal digits of a natural number, most significant first. -/
def natDigits (n : Nat) : List Char :=
  if h : n < 10 then [digitChar n]
  else natDigits (n / 10) ++ [digitChar (n % 10)]
decreasing_by exact Nat.div_lt_self (by omega) (by omega)

/-- Decimal rendering of an integer. -/
def intDigits : Int → List Char
  | Int.ofNat m => natDigits m
  | Int.negSucc m => '-' :: natDigits (m + 1)

/-- JSON string escaping of one character (quote and backslash). -/
def escapeChar (c : Char) : List Char :=
  if c = '"' then ['\\', '"'] else if c = '\\' then ['\\', '\\'] else [c]

/-- JSON string escaping of a character list. -/
def escapeList (l : List Char) : List Char := l.flatMap escapeChar

mutual

/-- `JSON.stringify`, producing a character list. -/
def stringifyV : JSVal → List Char
  | JSVal.jnull => ['n', 'u', 'l', 'l']
  | JSVal.jbool true => ['t', 'r', 'u', 'e']
  | JSVal.jbool false => ['f', 'a', 'l', 's', 'e']
  | JSVal.jnum n => intDigits n
  | JSVal.jstr s => '"' :: (escapeList s.toList ++ ['"'])
  | JSVal.jarr es => '[' :: (stringifyElems es ++ [']'])
  | JSVal.jobj fs => '\x7b' :: (stringifyFields fs ++ ['\x7d'])

/-- Comma-separated array elements. -/
def stringifyElems : List JSVal → List Char
  | [] => []
  | [v] => stringifyV v
  | v :: w :: rest => stringifyV v ++ ',' :: stringifyElems (w :: rest)

/-- Comma-separated object fields. -/
def stringifyFields : List (String × JSVal) → List Char
  | [] => []
  | [(k, v)] => '"' :: (escapeList k.toList ++ '"' :: ':' :: stringifyV v)
  | (k, v) :: f :: rest =>
    ('"' :: (escapeList k.toList ++ '"' :: ':' :: stringifyV v)) ++
      ',' :: stringifyFields (f :: rest)

end

/-- `JSON.stringify` as a string. -/
def jsonStringify (v : JSVal) : String := String.mk (stringifyV v)

/-- Decimal digit test (as in the JSON number grammar). -/
def isDigitChar (c : Char) : Bool := 48 ≤ c.toNat && c.toNat ≤ 57

/-- Numeric value of a digit character. -/
def digitVal (c : Char) : Nat := c.toNat - 48

/-- Consume a maximal run of digits, accumulating their value. -/
def parseDigitsAux (acc : Nat) : List Char → Nat × List Char
  | [] => (acc, [])
  | c :: rest =>
    if isDigitChar c then parseDigitsAux (10 * acc + digitVal c) rest else (acc, c :: rest)

/-- Parse a JSON natural number (at least one digit). -/
def parseNatNum : List Char → Option (Nat × List Char)
  | [] => none
  | c :: rest => if isDigitChar c then some (parseDigitsAux (digitVal c) rest) else none

/-- Parse the body of a JSON string after the opening quote, undoing the
escaping; `acc` holds the characters read so far, reversed. -/
def parseStringAux (acc : List Char) : List Char → Option (List Char × List Char)
  | [] => none
  | c :: rest =>
    if c = '"' then some (acc.reverse, rest)
    else if c = '\\' then
      match rest with
      | [] => none
      | c2 :: rest2 =>
        if c2 = '"' ∨ c2 = '\\' then parseStringAux (c2 :: acc) rest2 else none
    else parseStringAux (c :: acc) rest

mutual

/-- Recursive-descent JSON value parser, fuel-bounded (the fuel only bounds
the nesting of composite values; `jsonParse` supplies enough for any
input). -/
def parseV : Nat → List Char → Option (JSVal × List Char)
  | 0, _ => none
  | fuel + 1, cs =>
    if cs.take 4 = ['n', 'u', 'l', 'l'] then some (JSVal.jnull, cs.drop 4)
    else if cs.take 4 = ['t', 'r', 'u', 'e'] then some (JSVal.jbool true, cs.drop 4)
    else if cs.take 5 = ['f', 'a', 'l', 's', 'e'] then some (JSVal.jbool false, cs.drop 5)
    else
      match cs with
      | [] => none
      | c :: rest =>
        if c = '"' then
          match parseStringAux [] rest with
          | some (l, rest1) => some (JSVal.jstr (String.mk l), rest1)
          | none => none
        else if c = '[' then
          match rest with
          | [] => none
          | r1 :: r2 =>
            if r1 = ']' then some (JSVal.jarr [], r2)
            else
              match parseElems fuel (r1 :: r2) with
              | some (es, rest1) => some (JSVal.jarr es, rest1)
              | none => none
        else if c = '\x7b' then
          match rest with
          | [] => none
          | r1 :: r2 =>
            if r1 = '\x7d' then some (JSVal.jobj [], r2)
            else
              match parseFields fuel (r1 :: r2) with
              | some (fs, rest1) => some (JSVal.jobj fs, rest1)
              | none => none
        else if c = '-' then
          match parseNatNum rest with
          | some (m, rest1) => some (JSVal.jnum (-(m : Int)), rest1)
          | none => none
        else if isDigitChar c then
          match parseNatNum (c :: rest) with
          | some (m, rest1) => some (JSVal.jnum (m : Int), rest1)
          | none => none
        else none

/-- Parse a nonempty comma-separated element list up to the closing
bracket. -/
def parseElems : Nat → List Char → Option (List JSVal × List Char)
  | 0, _ => none
  | fuel + 1, cs =>
    match parseV fuel cs with
    | none => none
    | some (v, rest) =>
      match rest with
      | [] => none
      | r1 :: r2 =>
        if r1 = ',' then
          match parseElems fuel r2 with
          | some (es, rest2) => some (v :: es, rest2)
          | none => none
        else if r1 = ']' then some ([v], r2)
        else none

/-- Parse a nonempty comma-separated field list up to the closing brace. -/
def parseFields : Nat → List Char → Option (List (String × JSVal) × List Char)
  | 0, _ => none
  | fuel + 1, cs =>
    match cs with
    | [] => none
    | c :: rest =>
      if c = '"' then
        match parseStringAux [] rest with
        | none => none
        | some (l, rest1) =>
          match rest1 with
          | [] => none
          | r1 :: rest2 =>
            if r1 = ':' then
              match parseV fuel rest2 with
              | none => none
              | some (v, rest3) =>
                match rest3 with
                | [] => none
                | r3 :: rest4 =>
                  if r3 = ',' then
                    match parseFields fuel rest4 with
                    | some (fs, rest5) => some ((String.mk l, v) :: fs, rest5)
                    | none => none
                  else if r3 = '\x7d' then some ([(String.mk l, v)], rest4)
                  else none
            else none
      else none

end

/-- Whether a character list does not start with a decimal digit (the shape
of every continuation the printer ever puts after a number: a separator, a
closing delimiter, or the end of input). -/
def noLeadingDigit : List Char → Bool
  | [] => true
  | c :: _ => !isDigitChar c

/-- `JSON.parse`: parse the whole string (fuel `2·length + 2` suffices for
any input, since composite nesting consumes characters). -/
def jsonParse (s : String) : Option JSVal :=
  match parseV (2 * s.toList.length + 2) s.toList with
  | some (v, []) => some v
  | _ => none

/-- Model of the `is-json` heuristic used by `set`
(`isJSON(value, true)`), an external dependency outside the provided
sources: with `passObjects`, a (non-array) object counts as JSON, and a
string counts as JSON when it is the JSON text of a container. -/
def isJSONHeuristic : JSVal → Bool
  | JSVal.jobj _ => true
  | JSVal.jstr s =>
    match jsonParse s with
    | some (JSVal.jobj _) => true
    | some (JSVal.jarr _) => true
    | _ => false
  | _ => false

/-- The raw string `node_redis` sends when `set` does not JSON-encode the
value (strings are sent as-is, other primitives are coerced to their string
form; containers never reach this branch). -/
def rawString : JSVal → String
  | JSVal.jstr s => s
  | JSVal.jnum n => String.mk (intDigits n)
  | JSVal.jbool true => "true"
  | JSVal.jbool false => "false"
  | JSVal.jnull => "null"
  | v => jsonStringify v

/-- Embedding of `RedisStore.set`'s value encoding:
`Array.isArray(value) || isJSON(value, true) ? JSON.stringify(value) : value`. -/
def encodeValue (v : JSVal) : String :=
  match v with
  | JSVal.jarr _ => jsonStringify v
  | _ => if isJSONHeuristic v then jsonStringify v else rawString v

/-- Embedding of `RedisStore.get`'s decoding: `JSON.parse(result)` inside a
`try`, with the raw string returned when parsing throws. -/
def getDecode (stored : String) : JSVal :=
  match jsonParse stored with
  | some v => v
  | none => JSVal.jstr stored

/-- `set` followed by `get` on the same key, as observed by the caller. -/
def setGetRoundTrip (v : JSVal) : JSVal := getDecode (encodeValue v)

/-! ## Helper lemmas -/

/-- A cached (settled) script promise is returned as-is: the state does not
change and no load is issued. -/
theorem loadDeleteAllScript_cached (lo : Nat → Except RErr String) (s : ScriptState)
    (h : s.deleteScriptPromise ≠ none) : (loadDeleteAllScript lo s).2 = s := by
  cases hp : s.deleteScriptPromise with
  | none => exact absurd hp h
  | some r => simp [loadDeleteAllScript, hp]

/-- Iterating `_loadDeleteAllScript` from a state with a cached promise
changes nothing. -/
theorem iterateLoad_stable (lo : Nat → Except RErr String) (n : Nat) (s : ScriptState)
    (h : s.deleteScriptPromise ≠ none) : iterateLoad lo n s = s := by
  induction n with
  | zero => rfl
  | succ m ih =>
    show iterateLoad lo m (loadDeleteAllScript lo s).2 = s
    rw [loadDeleteAllScript_cached lo s h, ih]

/-- With a backend whose every `SCRIPT LOAD` answer is the `NOSCRIPT` error,
`_executeDeleteAll` recurses forever (no fuel suffices) from any not-loaded
state. -/
theorem executeDeleteAll_noscript_load_diverges (ex : String → Except RErr Nat)
    (fuel : Nat) :
    ∀ n : Nat,
      (executeDeleteAll (fun _ => Except.error ⟨"NOSCRIPT", "ReplyError"⟩) ex fuel
        ⟨none, n⟩).1 = none := by
  induction fuel with
  | zero => intro n; rfl
  | succ m ih =>
    intro n
    show (executeDeleteAll _ ex (m + 1) ⟨none, n⟩).1 = none
    simp only [executeDeleteAll, loadDeleteAllScript, RErr.isNoScript]
    exact ih (n + 1)

/-! ## Claim theorems -/

/-- C5: a `SCRIPT LOAD` request is issued only when the cached handle is in
the not-loaded state (with a cached promise the call leaves the state
untouched), and any number `n ≥ 1` of `deleteAll` callers reaching
`_loadDeleteAllScript` before the script is loaded coalesce onto exactly one
load request. -/
theorem loadScript_coalesces_single_load (lo : Nat → Except RErr String) (s : ScriptState) :
    (s.deleteScriptPromise ≠ none → (loadDeleteAllScript lo s).2 = s) ∧
    (s.deleteScriptPromise = none →
      ∀ n, 1 ≤ n → (iterateLoad lo n s).loadCount = s.loadCount + 1) := by
  constructor
  · exact loadDeleteAllScript_cached lo s
  · intro hnone n hn
    obtain ⟨m, rfl⟩ : ∃ m, n = m + 1 := ⟨n - 1, by omega⟩
    show (iterateLoad lo m (loadDeleteAllScript lo s).2).loadCount = s.loadCount + 1
    have hstep : (loadDeleteAllScript lo s).2 =
        { deleteScriptPromise := some (lo s.loadCount), loadCount := s.loadCount + 1 } := by
      simp [loadDeleteAllScript, hnone]
    rw [hstep, iterateLoad_stable _ _ _ (by simp)]

/-- Witness for C5 at a concrete oracle and states. -/
theorem loadScript_coalesces_single_load_witness :
    (loadDeleteAllScript (fun _ => Except.ok "sha") ⟨some (Except.ok "sha"), 1⟩).2 =
      ⟨some (Except.ok "sha"), 1⟩ ∧
    (iterateLoad (fun _ => Except.ok "sha") 3 ScriptState.init).loadCount = 1 := by
  constructor
  · exact (loadScript_coalesces_single_load (fun _ => Except.ok "sha")
      ⟨some (Except.ok "sha"), 1⟩).1 (by simp)
  · have h := (loadScript_coalesces_single_load (fun _ => Except.ok "sha")
      ScriptState.init).2 rfl 3 (by omega)
    simpa [ScriptState.init] using h

/-- C4 counterexample: a load failure whose `code` is not `'NOSCRIPT'`
(here `'ERR'`) does *not* reset the cached handle — after the failing
`deleteAll` the promise is still cached (not `none`), and a second
`deleteAll` issues no fresh load (`loadCount` stays 1) and observes the very
same old failure again. -/
theorem load_failure_not_reset_cex :
    executeDeleteAll (fun _ => Except.error ⟨"ERR", "ReplyError"⟩) (fun _ => Except.ok 0) 5
        ScriptState.init =
      (some (Except.error ⟨"ERR", "ReplyError"⟩),
        ⟨some (Except.error ⟨"ERR", "ReplyError"⟩), 1⟩, []) ∧
    executeDeleteAll (fun _ => Except.error ⟨"ERR", "ReplyError"⟩) (fun _ => Except.ok 0) 5
        ⟨some (Except.error ⟨"ERR", "ReplyError"⟩), 1⟩ =
      (some (Except.error ⟨"ERR", "ReplyError"⟩),
        ⟨some (Except.error ⟨"ERR", "ReplyError"⟩), 1⟩, []) := ⟨rfl, rfl⟩

/-- C4 (amended): the cached handle is reset to not-loaded only when the
load failure carries the `'NOSCRIPT'` code; for any other load failure the
rejected outcome stays cached, so a subsequent `deleteAll` observes the same
old failure again without issuing a fresh load request. -/
theorem load_failure_reset_only_for_noscript
    (lo : Nat → Except RErr String) (ex : String → Except RErr Nat) (e : RErr)
    (hl : lo 0 = Except.error e) (he : e.isNoScript = false) (fuel1 fuel2 : Nat) :
    (executeDeleteAll lo ex (fuel1 + 1) ScriptState.init =
      (some (Except.error e), ⟨some (Except.error e), 1⟩, []) ∧
     executeDeleteAll lo ex (fuel2 + 1) ⟨some (Except.error e), 1⟩ =
      (some (Except.error e), ⟨some (Except.error e), 1⟩, [])) ∧
    (∀ e2 : RErr, lo 0 = Except.error e2 → e2.isNoScript = true →
      executeDeleteAll lo ex 1 ScriptState.init = (none, ⟨none, 1⟩, [])) := by
  refine ⟨⟨?_, ?_⟩, ?_⟩
  · simp [executeDeleteAll, loadDeleteAllScript, ScriptState.init, hl, he]
  · simp [executeDeleteAll, loadDeleteAllScript, he]
  · intro e2 hl2 he2
    simp [executeDeleteAll, loadDeleteAllScript, ScriptState.init, hl2, he2]

/-- Witness for C4 (amended) at a concrete non-`NOSCRIPT` error. -/
theorem load_failure_reset_only_for_noscript_witness :
    executeDeleteAll (fun _ => Except.error ⟨"ERR", "ReplyError"⟩) (fun _ => Except.ok 0) 7
        ScriptState.init =
      (some (Except.error ⟨"ERR", "ReplyError"⟩),
        ⟨some (Except.error ⟨"ERR", "ReplyError"⟩), 1⟩, []) :=
  (load_failure_reset_only_for_noscript (fun _ => Except.error ⟨"ERR", "ReplyError"⟩)
    (fun _ => Except.ok 0) ⟨"ERR", "ReplyError"⟩ rfl rfl 6 0).1.1

/-- C3 (code bug): the `try`/`catch` in `_executeDeleteAll` wraps only the
script *load*; a `NOSCRIPT` failure of the `EVALSHA` *execution* is not
caught — it propagates to the caller unchanged, the cached handle is not
reset, and no reload-and-retry happens (exactly one `EVALSHA`, one load).
Moreover the branch the source does guard recurses unboundedly when the
load itself keeps answering `NOSCRIPT` (no fuel suffices), instead of the
bounded retry the claim describes. -/
theorem deleteAll_exec_noscript_not_retried :
    (∀ fuel : Nat,
      executeDeleteAll (fun _ => Except.ok "abc")
        (fun _ => Except.error ⟨"NOSCRIPT", "ReplyError"⟩) (fuel + 1) ScriptState.init =
      (some (Except.error ⟨"NOSCRIPT", "ReplyError"⟩), ⟨some (Except.ok "abc"), 1⟩, ["abc"])) ∧
    (∀ fuel : Nat,
      (executeDeleteAll (fun _ => Except.error ⟨"NOSCRIPT", "ReplyError"⟩)
        (fun _ => Except.ok 0) fuel ScriptState.init).1 = none) := by
  constructor
  · intro fuel
    simp [executeDeleteAll, loadDeleteAllScript, ScriptState.init, RErr.isNoScript]
  · intro fuel
    exact executeDeleteAll_noscript_load_diverges (fun _ => Except.ok 0) fuel 0

/-- C10: when `set` is called without an explicit ttl and a (validated,
positive) default TTL is configured, the value is written with `setex`
carrying the default TTL; with neither an explicit nor a default TTL it is
written with a plain `set` and no expiry. -/
theorem set_uses_default_ttl (d : Nat) (hd : 0 < d) (key encoded : String) :
    mkDefaultTtl (some (d : Int)) = Except.ok (some d) ∧
    setCommandFor (some d) key encoded none =
      Except.ok ("setex", [key, toString d, encoded]) ∧
    setCommandFor none key encoded none = Except.ok ("set", [key, encoded]) := by
  refine ⟨?_, ?_, ?_⟩
  · simp [mkDefaultTtl, validatedTtl, hd]
  · have hne : d ≠ 0 := by omega
    simp [setCommandFor, validatedTtl, hne]
  · simp [setCommandFor, validatedTtl]

/-- Witness for C10 with default TTL 7. -/
theorem set_uses_default_ttl_witness :
    mkDefaultTtl (some (7 : Int)) = Except.ok (some 7) ∧
    setCommandFor (some 7) "k" "v" none = Except.ok ("setex", ["k", "7", "v"]) ∧
    setCommandFor none "k" "v" none = Except.ok ("set", ["k", "v"]) :=
  set_uses_default_ttl 7 (by decide) "k" "v"

/-- C6 counterexample: with a backend whose establishment attempts 1–3 fail
while attempt 4 would succeed, `factory.create` never makes a fourth
establishment attempt — the fourth retry invocation (counter `> 3`)
resolves the terminal `CONN_FAILED` error object instead, and `acquire`
surfaces it to the caller as a thrown error; so "attempt 4 succeeds ⇒ the
caller receives a live connection" is false on the code. -/
theorem factory_fourth_attempt_cex :
    factoryCreate (fun n => decide (4 ≤ n)) = some (CreateResult.errValue connFailedErr) ∧
    (rpAcquire (fun _ _ => none) none (fun _ => 0)
        ⟨[PoolItem.errValue connFailedErr], []⟩).map (fun t => (t.1, t.2.1, t.2.2.2)) =
      some (AcquireResult.thrown connFailedErr,
        (⟨[], [PoolItem.errValue connFailedErr]⟩ : PoolState), ([] : List WireEv)) :=
  ⟨rfl, rfl⟩

/-- C6 (amended): the factory makes up to 3 total establishment attempts —
if attempts 1 and 2 fail and attempt 3 succeeds the caller gets a live
connection with no observable error; if attempts 1–3 all fail, the next
retry invocation yields the terminal `CONN_FAILED` error object resolved as
a value, which `acquire` surfaces to that caller as a thrown error while the
rest of the pool (remaining available items, in-use bookkeeping) is
unaffected. -/
theorem factory_retry_bound_and_surfacing :
    (∀ ok : Nat → Bool, ok 1 = false → ok 2 = false → ok 3 = true →
      factoryCreate ok = some (CreateResult.conn 3)) ∧
    (∀ ok : Nat → Bool, ok 1 = false → ok 2 = false → ok 3 = false →
      factoryCreate ok = some (CreateResult.errValue connFailedErr)) ∧
    (∀ (sel : Nat → Nat → Option RErr) (db : Option Nat) (dbOf : Nat → Nat)
        (rest inUse : List PoolItem),
      (rpAcquire sel db dbOf ⟨PoolItem.errValue connFailedErr :: rest, inUse⟩).map
          (fun t => (t.1, t.2.1)) =
        some (AcquireResult.thrown connFailedErr,
          (⟨rest, inUse ++ [PoolItem.errValue connFailedErr]⟩ : PoolState))) := by
  refine ⟨?_, ?_, ?_⟩
  · intro ok h1 h2 h3
    simp [factoryCreate, retryAsPromised, factoryAttempt, h1, h2, h3]
  · intro ok h1 h2 h3
    simp [factoryCreate, retryAsPromised, factoryAttempt, h1, h2, h3]
  · intro sel db dbOf rest inUse
    simp [rpAcquire, poolAcquire]

/-- Witness for C6 (amended) at concrete attempt oracles. -/
theorem factory_retry_bound_and_surfacing_witness :
    factoryCreate (fun n => decide (n = 3)) = some (CreateResult.conn 3) ∧
    factoryCreate (fun _ => false) = some (CreateResult.errValue connFailedErr) ∧
    (rpAcquire (fun _ _ => none) (some 1) (fun _ => 0)
        ⟨[PoolItem.errValue connFailedErr, PoolItem.conn 9], []⟩).map
        (fun t => (t.1, t.2.1)) =
      some (AcquireResult.thrown connFailedErr,
        (⟨[PoolItem.conn 9], [PoolItem.errValue connFailedErr]⟩ : PoolState)) := by
  refine ⟨?_, ?_, ?_⟩
  · exact factory_retry_bound_and_surfacing.1 (fun n => decide (n = 3)) rfl rfl rfl
  · exact factory_retry_bound_and_surfacing.2.1 (fun _ => false) rfl rfl rfl
  · exact factory_retry_bound_and_surfacing.2.2 (fun _ _ => none) (some 1) (fun _ => 0)
      [PoolItem.conn 9] []

/-- C1: whenever `sendCommand`'s connection acquisition succeeds with a live
connection, the command is sent exactly once and the connection is released
back to the pool exactly once — on the success path and on the failure path
alike — before the call resolves or rejects (afterwards the connection sits
in the available set and is no longer tracked as in use), and a command
failure is surfaced to the caller unchanged, with no retry. -/
theorem sendCommand_releases_once (cfgDb : Option Nat) (outcome : Nat → Except RErr String)
    (name : String) (dbOf : Nat → Nat) (id : Nat) (rest inUse : List PoolItem)
    (hni : PoolItem.conn id ∉ inUse) :
    sendCommand cfgDb outcome name dbOf ⟨PoolItem.conn id :: rest, inUse⟩ =
      some
        ((match outcome id with
          | Except.ok r => SendResult.ok r
          | Except.error e => SendResult.err e),
         ⟨rest ++ [PoolItem.conn id], inUse⟩,
         [WireEv.send id (dbOf id) name]) := by
  have herase : (inUse ++ [PoolItem.conn id]).erase (PoolItem.conn id) = inUse := by
    rw [List.erase_append_right _ hni, List.erase_cons_head, List.append_nil]
  cases houtcome : outcome id with
  | ok r => simp [sendCommand, poolAcquire, poolRelease, houtcome, herase]
  | error e => simp [sendCommand, poolAcquire, poolRelease, houtcome, herase]

/-- Witness for C1 on both the success and the failure path of the
command. -/
theorem sendCommand_releases_once_witness :
    sendCommand none (fun _ => Except.ok "PONG") "ping" (fun _ => 0)
        ⟨[PoolItem.conn 1], []⟩ =
      some (SendResult.ok "PONG", ⟨[PoolItem.conn 1], []⟩, [WireEv.send 1 0 "ping"]) ∧
    sendCommand none (fun _ => Except.error ⟨"ERR", "ReplyError"⟩) "ping" (fun _ => 0)
        ⟨[PoolItem.conn 1], []⟩ =
      some (SendResult.err ⟨"ERR", "ReplyError"⟩, ⟨[PoolItem.conn 1], []⟩,
        [WireEv.send 1 0 "ping"]) :=
  ⟨sendCommand_releases_once none (fun _ => Except.ok "PONG") "ping" (fun _ => 0) 1 [] []
      (by simp),
   sendCommand_releases_once none (fun _ => Except.error ⟨"ERR", "ReplyError"⟩) "ping"
      (fun _ => 0) 1 [] [] (by simp)⟩

/-- C8 (code bug): `sendCommand` passes `this.redisOptions.db` to
`generic-pool`'s `acquire`, which ignores it, so no database-selection
command is ever issued on this path: with the store configured for database
index 2 and a fresh connection still selected on the default index 0, the
command is sent while the connection sits on index 0 ≠ 2, and the wire
trace contains no `select`. -/
theorem sendCommand_ignores_configured_db :
    sendCommand (some 2) (fun _ => Except.ok "OK") "get" (fun _ => 0)
        ⟨[PoolItem.conn 1], []⟩ =
      some (SendResult.ok "OK", ⟨[PoolItem.conn 1], []⟩, [WireEv.send 1 0 "get"]) ∧
    (0 : Nat) ≠ 2 := ⟨rfl, by decide⟩

/-- C7 counterexample: acquiring with database index 2 on a pool whose only
available item is connection 1, with the backend rejecting the selection,
throws the selection error — and the connection is *not* returned to the
pool's available set: the available set ends empty while the connection
stays tracked as in use. -/
theorem acquire_select_failure_not_released_cex :
    (rpAcquire (fun _ _ => some ⟨"ERR", "ReplyError"⟩) (some 2) (fun _ => 0)
        ⟨[PoolItem.conn 1], []⟩).map (fun t => (t.1, t.2.1, t.2.2.2)) =
      some (AcquireResult.thrown ⟨"ERR", "ReplyError"⟩,
        (⟨[], [PoolItem.conn 1]⟩ : PoolState), [WireEv.select 1 2]) := rfl

/-- C7 (amended): when `acquire` requests a (truthy) database index and the
selection command fails, the error propagates to the caller and the
connection is neither handed to the caller nor destroyed — but it is not
returned to the pool's available set either: it remains tracked as checked
out (leaked), since no release is issued on this path. -/
theorem acquire_select_failure_leaks (sel : Nat → Nat → Option RErr) (d id : Nat)
    (dbOf : Nat → Nat) (rest inUse : List PoolItem) (e : RErr)
    (hd : d ≠ 0) (hsel : sel id d = some e) :
    (rpAcquire sel (some d) dbOf ⟨PoolItem.conn id :: rest, inUse⟩).map
        (fun t => (t.1, t.2.1, t.2.2.2)) =
      some (AcquireResult.thrown e,
        (⟨rest, inUse ++ [PoolItem.conn id]⟩ : PoolState), [WireEv.select id d]) := by
  simp [rpAcquire, poolAcquire, hd, hsel]

/-- Witness for C7 (amended) at a concrete pool and failing selection. -/
theorem acquire_select_failure_leaks_witness :
    (rpAcquire (fun _ _ => some ⟨"ERR", "ReplyError"⟩) (some 3) (fun _ => 0)
        ⟨[PoolItem.conn 4, PoolItem.conn 5], [PoolItem.conn 6]⟩).map
        (fun t => (t.1, t.2.1, t.2.2.2)) =
      some (AcquireResult.thrown ⟨"ERR", "ReplyError"⟩,
        (⟨[PoolItem.conn 5], [PoolItem.conn 6, PoolItem.conn 4]⟩ : PoolState),
        [WireEv.select 4 3]) := by
  have h := acquire_select_failure_leaks (fun _ _ => some ⟨"ERR", "ReplyError"⟩) 3 4
    (fun _ => 0) [PoolItem.conn 5] [PoolItem.conn 6] ⟨"ERR", "ReplyError"⟩
    (by decide) rfl
  simpa using h

/-- Unlinking a duplicate-free batch of keys that are all present removes
exactly those keys, keeps everything else in order, and replies with the
batch size. -/
theorem unlinkAll_spec {K : Type} [DecidableEq K] (ks : List K) :
    ∀ store : List K, ks.Nodup → store.Nodup → (∀ k ∈ ks, k ∈ store) →
      unlinkAll ks store = (ks.length, store.filter (fun x => decide (x ∉ ks))) := by
  induction ks with
  | nil =>
    intro store _ _ _
    simp [unlinkAll]
  | cons k ks ih =>
    intro store hks hst hsub
    obtain ⟨hknotin, hks2⟩ := List.nodup_cons.mp hks
    have hkmem : k ∈ store := hsub k (List.mem_cons_self k ks)
    have hstep : unlink store k = (1, store.erase k) := by simp [unlink, hkmem]
    have hrec := ih (store.erase k) hks2 (hst.erase k)
      (fun x hx => by
        have hxk : x ≠ k := fun hxe => hknotin (hxe ▸ hx)
        exact (List.mem_erase_of_ne hxk).mpr (hsub x (List.mem_cons_of_mem k hx)))
    rw [show unlinkAll (k :: ks) store =
        ((unlink store k).1 + (unlinkAll ks (unlink store k).2).1,
         (unlinkAll ks (unlink store k).2).2) from rfl, hstep]
    simp only [hrec, Prod.mk.injEq]
    constructor
    · simp [Nat.add_comm]
    · rw [hst.erase_eq_filter, List.filter_filter]
      apply List.filter_congr
      intro a _
      by_cases hak : a = k
      · simp [hak]
      · by_cases haks : a ∈ ks <;> simp [hak, haks, bne_iff_ne]

/-- The scan loop deletes exactly the matching keys of the (duplicate-free)
snapshot that are present in the keyspace, counting each, and leaves all
other keys untouched and in order. -/
theorem deleteAllLoop_spec {K : Type} [DecidableEq K] (p : K → Bool) (count : Nat)
    (hc : 0 < count) :
    ∀ (n : Nat) (toScan : List K), toScan.length ≤ n →
      ∀ store : List K, toScan.Nodup → store.Nodup → (∀ k ∈ toScan, k ∈ store) →
      deleteAllLoop p count hc toScan store =
        ((toScan.filter p).length,
         store.filter (fun x => !(p x && decide (x ∈ toScan)))) := by
  intro n
  induction n with
  | zero =>
    intro toScan hlen store _ _ _
    have hnil : toScan = [] := List.length_eq_zero.mp (Nat.le_zero.mp hlen)
    subst hnil
    rw [deleteAllLoop]
    simp [unlinkAll]
  | succ n ih =>
    intro toScan hlen store hnd hst hsub
    rw [deleteAllLoop]
    have hchunk_nd : ((toScan.take count).filter p).Nodup :=
      (hnd.sublist (List.take_sublist count toScan)).filter p
    have hchunk_sub : ∀ k ∈ (toScan.take count).filter p, k ∈ store := fun k hk =>
      hsub k (List.mem_of_mem_take (List.mem_of_mem_filter hk))
    have hstep := unlinkAll_spec ((toScan.take count).filter p) store hchunk_nd hst hchunk_sub
    by_cases hrest : toScan.drop count = []
    · have htake : toScan.take count = toScan :=
        List.take_of_length_le (List.drop_eq_nil_iff.mp hrest)
      rw [htake] at hstep
      simp only [hrest, htake, dite_true, hstep, Prod.mk.injEq]
      constructor
      · trivial
      · apply List.filter_congr
        intro a _
        by_cases hpa : p a <;> by_cases hma : a ∈ toScan <;>
          simp [hpa, hma, List.mem_filter]
    · -- the cursor is not back at the origin: another scan step follows
      have hsplit := List.take_append_drop count toScan
      have hnd2 : ((toScan.take count) ++ (toScan.drop count)).Nodup := by
        rw [hsplit]; exact hnd
      obtain ⟨hndt, hndd, hdisj⟩ := List.nodup_append.mp hnd2
      have hlen2 : (toScan.drop count).length ≤ n := by
        have h1 : (toScan.drop count).length = toScan.length - count :=
          List.length_drop count toScan
        have h2 : 0 < (toScan.drop count).length := List.length_pos.mpr hrest
        omega
      have hrec := ih (toScan.drop count) hlen2
        (store.filter (fun x => decide (x ∉ (toScan.take count).filter p)))
        hndd (hst.filter _)
        (fun k hk => by
          have hks : k ∈ store := hsub k (by rw [← hsplit]; exact List.mem_append_right _ hk)
          have hknott : k ∉ toScan.take count := fun hc2 => hdisj hc2 hk
          simp only [List.mem_filter, decide_eq_true_eq]
          refine ⟨hks, ?_⟩
          intro hmem
          exact hknott hmem.1)
      have hmem_iff : ∀ a : K, a ∈ toScan ↔ (a ∈ toScan.take count ∨ a ∈ toScan.drop count) :=
        fun a => by
          conv_lhs => rw [← hsplit]
          exact List.mem_append
      simp only [hrest, dite_false, hstep, hrec, Prod.mk.injEq]
      constructor
      · -- deleted count adds up over the chunks
        conv_rhs => rw [← hsplit]
        rw [List.filter_append, List.length_append]
      · -- the two filters compose to the filter over the whole snapshot
        rw [List.filter_filter]
        apply List.filter_congr
        intro a _
        by_cases hpa : p a
        · by_cases hmt : a ∈ toScan.take count
          · have hmm : a ∈ toScan := (hmem_iff a).mpr (Or.inl hmt)
            simp [hpa, hmt, hmm, List.mem_filter]
          · by_cases hmd : a ∈ toScan.drop count
            · have hmm : a ∈ toScan := (hmem_iff a).mpr (Or.inr hmd)
              simp [hpa, hmt, hmd, hmm, List.mem_filter]
            · have hmm : a ∉ toScan := fun hin => by
                rcases (hmem_iff a).mp hin with h | h
                exacts [hmt h, hmd h]
              simp [hpa, hmt, hmd, hmm, List.mem_filter]
        · simp [hpa, List.mem_filter]

/-- C2: for every duplicate-free keyspace and every pattern (modelled by the
predicate it denotes), the `deleteAll` script — the cursor-driven scan in
chunks of 1000 that unlinks each returned key and stops when the cursor
returns to the origin sentinel — removes exactly the matching keys and
returns their count, leaving the non-matching keys untouched and in
order. -/
theorem deleteAll_removes_exactly_matching {K : Type} [DecidableEq K] (p : K → Bool)
    (store : List K) (hnd : store.Nodup) :
    (deleteAllScript p store).1 = (store.filter p).length ∧
    (deleteAllScript p store).2 = store.filter (fun k => !p k) := by
  have h := deleteAllLoop_spec p 1000 (by decide) store.length store (Nat.le_refl _)
    store hnd hnd (fun _ hk => hk)
  rw [deleteAllScript, h]
  refine ⟨rfl, ?_⟩
  apply List.filter_congr
  intro a ha
  simp [ha]

/-- Witness for C2 at keyspace sizes 0, 1 and 2500 (three scan chunks at
chunk size 1000) and at a keyspace with non-matching keys. -/
theorem deleteAll_removes_exactly_matching_witness :
    deleteAllScript (fun _ => true) ([] : List Nat) = (0, []) ∧
    deleteAllScript (fun _ => true) [42] = (1, []) ∧
    deleteAllScript (fun _ => true) (List.range 2500) = (2500, []) ∧
    deleteAllScript (fun k => decide (k < 2)) [0, 1, 2, 3] = (2, [2, 3]) := by
  refine ⟨?_, ?_, ?_, ?_⟩
  · have h := deleteAll_removes_exactly_matching (fun _ => true) ([] : List Nat) (by simp)
    exact Prod.ext h.1 (by simpa using h.2)
  · have h := deleteAll_removes_exactly_matching (fun _ => true) [42] (by simp)
    exact Prod.ext (by simpa using h.1) (by simpa using h.2)
  · have h := deleteAll_removes_exactly_matching (fun _ => true) (List.range 2500)
      (List.nodup_range 2500)
    refine Prod.ext ?_ ?_
    · rw [h.1]; simp
    · rw [h.2]; simp
  · have h := deleteAll_removes_exactly_matching (fun k => decide (k < 2)) [0, 1, 2, 3]
      (by decide)
    refine Prod.ext ?_ ?_
    · rw [h.1]; decide
    · rw [h.2]; decide

/-! ## Helper lemmas for the JSON round trip -/

/-- The digit character of `d < 10` passes the digit test. -/
theorem digitChar_isDigit {d : Nat} (hd : d < 10) : isDigitChar (digitChar d) = true := by
  interval_cases d <;> decide

/-- The digit character of `d < 10` decodes back to `d`. -/
theorem digitVal_digitChar {d : Nat} (hd : d < 10) : digitVal (digitChar d) = d := by
  interval_cases d <;> decide

/-- A digit character is none of the parser's dispatch characters. -/
theorem isDigit_ne_delims {c : Char} (h : isDigitChar c = true) :
    c ≠ 'n' ∧ c ≠ 't' ∧ c ≠ 'f' ∧ c ≠ '"' ∧ c ≠ '[' ∧ c ≠ '\x7b' ∧ c ≠ '-' ∧
      c ≠ ']' ∧ c ≠ ',' ∧ c ≠ '\x7d' := by
  have hb : 48 ≤ c.toNat ∧ c.toNat ≤ 57 := by
    simpa [isDigitChar, Bool.and_eq_true, decide_eq_true_eq] using h
  refine ⟨?_, ?_, ?_, ?_, ?_, ?_, ?_, ?_, ?_, ?_⟩ <;> rintro rfl <;>
    exact absurd hb (by decide)

/-- `parseDigitsAux` stops at a non-digit continuation. -/
theorem parseDigitsAux_stop (acc : Nat) (rest : List Char)
    (h : noLeadingDigit rest = true) : parseDigitsAux acc rest = (acc, rest) := by
  cases rest with
  | nil => rfl
  | cons c t =>
    have hc : isDigitChar c = false := by simpa [noLeadingDigit] using h
    simp [parseDigitsAux, hc]

/-- `parseDigitsAux` folds one digit into the accumulator. -/
theorem parseDigitsAux_digit (acc : Nat) (c : Char) (t : List Char)
    (h : isDigitChar c = true) :
    parseDigitsAux acc (c :: t) = parseDigitsAux (10 * acc + digitVal c) t := by
  simp [parseDigitsAux, h]

/-- Consuming the printed digits of `m` multiplies the accumulator by the
corresponding power of ten and adds `m`. -/
theorem parseDigitsAux_natDigits (m : Nat) :
    ∀ (acc : Nat) (rest : List Char),
      parseDigitsAux acc (natDigits m ++ rest) =
        parseDigitsAux (acc * 10 ^ (natDigits m).length + m) rest := by
  induction m using Nat.strong_induction_on with
  | _ m ih =>
    intro acc rest
    by_cases hm : m < 10
    · rw [natDigits]
      simp only [hm, dite_true, List.singleton_append, List.length_singleton]
      rw [parseDigitsAux_digit _ _ _ (digitChar_isDigit hm), digitVal_digitChar hm]
      congr 1
      rw [pow_one, Nat.mul_comm]
    · have hdiv : m / 10 < m := Nat.div_lt_self (by omega) (by omega)
      have hmod : m % 10 < 10 := Nat.mod_lt _ (by omega)
      rw [natDigits]
      simp only [hm, dite_false, List.append_assoc, List.singleton_append]
      rw [ih (m / 10) hdiv acc (digitChar (m % 10) :: rest),
        parseDigitsAux_digit _ _ _ (digitChar_isDigit hmod), digitVal_digitChar hmod,
        List.length_append, List.length_singleton]
      congr 1
      have hdm : m / 10 * 10 + m % 10 = m := by omega
      calc 10 * (acc * 10 ^ (natDigits (m / 10)).length + m / 10) + m % 10
          = acc * (10 ^ (natDigits (m / 10)).length * 10) + (m / 10 * 10 + m % 10) := by
            ring
        _ = acc * 10 ^ ((natDigits (m / 10)).length + 1) + m := by rw [hdm, pow_succ]

/-- The printed digits of a natural number start with a digit character. -/
theorem natDigits_head (m : Nat) :
    ∃ c t, natDigits m = c :: t ∧ isDigitChar c = true := by
  induction m using Nat.strong_induction_on with
  | _ m ih =>
    by_cases hm : m < 10
    · exact ⟨digitChar m, [], by rw [natDigits]; simp [hm], digitChar_isDigit hm⟩
    · obtain ⟨c, t, hct, hd⟩ := ih (m / 10) (Nat.div_lt_self (by omega) (by omega))
      refine ⟨c, t ++ [digitChar (m % 10)], ?_, hd⟩
      rw [natDigits]
      simp [hm, hct]

/-- Parsing the printed digits of `m` followed by a non-digit continuation
yields exactly `m`. -/
theorem parseNatNum_natDigits (m : Nat) (rest : List Char)
    (h : noLeadingDigit rest = true) :
    parseNatNum (natDigits m ++ rest) = some (m, rest) := by
  obtain ⟨c, t, hct, hd⟩ := natDigits_head m
  have h0 : parseDigitsAux 0 (natDigits m ++ rest) = parseDigitsAux (digitVal c) (t ++ rest) := by
    rw [hct]
    simp only [List.cons_append]
    rw [parseDigitsAux_digit _ _ _ hd]
    norm_num
  have h1 : parseNatNum (natDigits m ++ rest) = some (parseDigitsAux (digitVal c) (t ++ rest)) := by
    rw [hct]
    simp only [List.cons_append]
    simp [parseNatNum, hd]
  rw [h1, ← h0, parseDigitsAux_natDigits]
  simp [parseDigitsAux_stop _ _ h]

/-- Parsing an escaped string body up to the closing quote recovers exactly
the original characters. -/
theorem parseStringAux_escape (l : List Char) :
    ∀ (acc rest : List Char),
      parseStringAux acc (escapeList l ++ '"' :: rest) = some (acc.reverse ++ l, rest) := by
  induction l with
  | nil =>
    intro acc rest
    rw [show escapeList [] = [] from rfl]
    rw [List.nil_append, parseStringAux.eq_def]
    simp
  | cons c t ih =>
    intro acc rest
    rw [show escapeList (c :: t) = escapeChar c ++ escapeList t from by simp [escapeList]]
    by_cases h1 : c = '"'
    · subst h1
      rw [show escapeChar '"' = ['\\', '"'] from rfl]
      rw [show (['\\', '"'] ++ escapeList t) ++ '"' :: rest =
        '\\' :: '"' :: (escapeList t ++ '"' :: rest) from by simp]
      rw [parseStringAux.eq_def]
      simp [ih]
    · by_cases h2 : c = '\\'
      · subst h2
        rw [show escapeChar '\\' = ['\\', '\\'] from rfl]
        rw [show (['\\', '\\'] ++ escapeList t) ++ '"' :: rest =
          '\\' :: '\\' :: (escapeList t ++ '"' :: rest) from by simp]
        rw [parseStringAux.eq_def]
        simp [ih]
      · rw [show escapeChar c = [c] from by simp [escapeChar, h1, h2]]
        rw [show ([c] ++ escapeList t) ++ '"' :: rest =
          c :: (escapeList t ++ '"' :: rest) from by simp]
        rw [parseStringAux.eq_def]
        simp [h1, h2, ih]

/-- A cons list whose head differs cannot equal a given cons list, whatever
the takes. -/
theorem take_cons_ne_kw {c kc : Char} (h : c ≠ kc) (cs kcs : List Char) (n : Nat) :
    ¬(c :: cs).take (n + 1) = kc :: kcs := by
  simp [List.take_succ_cons, h]

/-- The printed form of a value starts with a character that is not a
closing delimiter or separator. -/
theorem stringifyV_head (v : JSVal) :
    ∃ c t, stringifyV v = c :: t ∧ c ≠ ']' ∧ c ≠ ',' ∧ c ≠ '\x7d' := by
  cases v with
  | jnull =>
    exact ⟨'n', ['u', 'l', 'l'], by simp [stringifyV], by decide, by decide, by decide⟩
  | jbool b =>
    cases b with
    | false =>
      exact ⟨'f', ['a', 'l', 's', 'e'], by simp [stringifyV], by decide, by decide, by decide⟩
    | true =>
      exact ⟨'t', ['r', 'u', 'e'], by simp [stringifyV], by decide, by decide, by decide⟩
  | jnum n =>
    cases n with
    | ofNat m =>
      obtain ⟨c, t, hct, hd⟩ := natDigits_head m
      obtain ⟨_, _, _, _, _, _, _, h8, h9, h10⟩ := isDigit_ne_delims hd
      exact ⟨c, t, by simp [stringifyV, intDigits, hct], h8, h9, h10⟩
    | negSucc m =>
      exact ⟨'-', natDigits (m + 1), by simp [stringifyV, intDigits], by decide, by decide,
        by decide⟩
  | jstr s =>
    exact ⟨'"', escapeList s.toList ++ ['"'], by simp [stringifyV], by decide, by decide,
      by decide⟩
  | jarr es =>
    exact ⟨'[', stringifyElems es ++ [']'], by simp [stringifyV], by decide, by decide,
      by decide⟩
  | jobj fs =>
    exact ⟨'\x7b', stringifyFields fs ++ ['\x7d'], by simp [stringifyV], by decide, by decide,
      by decide⟩

/-- The printed form of a nonempty element list starts with the head of its
first element's printed form — never with the closing bracket. -/
theorem stringifyElems_head (v : JSVal) (vs : List JSVal) :
    ∃ c t, stringifyElems (v :: vs) = c :: t ∧ c ≠ ']' := by
  obtain ⟨c, t, hct, h1, _, _⟩ := stringifyV_head v
  cases vs with
  | nil => exact ⟨c, t, by simp [stringifyElems, hct], h1⟩
  | cons w ws =>
    refine ⟨c, t ++ ',' :: stringifyElems (w :: ws), ?_, h1⟩
    rw [show stringifyElems (v :: w :: ws) =
      stringifyV v ++ ',' :: stringifyElems (w :: ws) from by simp [stringifyElems]]
    simp [hct]

/-- The printed form of a nonempty field list starts with the opening quote
of its first key. -/
theorem stringifyFields_head (kv : String × JSVal) (fs : List (String × JSVal)) :
    ∃ t, stringifyFields (kv :: fs) = '"' :: t := by
  obtain ⟨k, v⟩ := kv
  cases fs with
  | nil =>
    exact ⟨escapeList k.toList ++ '"' :: ':' :: stringifyV v, by simp [stringifyFields]⟩
  | cons f2 fs2 =>
    refine ⟨(escapeList k.toList ++ '"' :: ':' :: stringifyV v) ++
      ',' :: stringifyFields (f2 :: fs2), ?_⟩
    rw [show stringifyFields ((k, v) :: f2 :: fs2) =
      ('"' :: (escapeList k.toList ++ '"' :: ':' :: stringifyV v)) ++
        ',' :: stringifyFields (f2 :: fs2) from by simp [stringifyFields]]
    simp

/-- Round trip of the printer and the parser: with enough fuel (twice the
printed length), parsing a printed value followed by any continuation that
does not begin with a digit returns exactly that value and the continuation;
correspondingly for nonempty printed element and field lists followed by
their closing delimiter. -/
theorem parse_stringify (fuel : Nat) :
    (∀ (v : JSVal) (rest : List Char), 2 * (stringifyV v).length ≤ fuel →
      noLeadingDigit rest = true →
      parseV fuel (stringifyV v ++ rest) = some (v, rest)) ∧
    (∀ (es : List JSVal) (rest : List Char), es ≠ [] →
      2 * (stringifyElems es).length + 3 ≤ fuel →
      parseElems fuel (stringifyElems es ++ ']' :: rest) = some (es, rest)) ∧
    (∀ (fs : List (String × JSVal)) (rest : List Char), fs ≠ [] →
      2 * (stringifyFields fs).length + 3 ≤ fuel →
      parseFields fuel (stringifyFields fs ++ '\x7d' :: rest) = some (fs, rest)) := by
  induction fuel using Nat.strong_induction_on with
  | _ fuel ih =>
    refine ⟨?_, ?_, ?_⟩
    · -- parseV on a printed value
      intro v rest hfuel hrest
      cases v with
      | jnull =>
        have hl : (stringifyV JSVal.jnull).length = 4 := by simp [stringifyV]
        obtain ⟨f, rfl⟩ : ∃ f, fuel = f + 1 := ⟨fuel - 1, by omega⟩
        rw [show stringifyV JSVal.jnull ++ rest = 'n' :: 'u' :: 'l' :: 'l' :: rest from by
          simp [stringifyV]]
        simp [parseV]
      | jbool b =>
        cases b with
        | true =>
          have hl : (stringifyV (JSVal.jbool true)).length = 4 := by simp [stringifyV]
          obtain ⟨f, rfl⟩ : ∃ f, fuel = f + 1 := ⟨fuel - 1, by omega⟩
          rw [show stringifyV (JSVal.jbool true) ++ rest = 't' :: 'r' :: 'u' :: 'e' :: rest from by
            simp [stringifyV]]
          simp [parseV]
        | false =>
          have hl : (stringifyV (JSVal.jbool false)).length = 5 := by simp [stringifyV]
          obtain ⟨f, rfl⟩ : ∃ f, fuel = f + 1 := ⟨fuel - 1, by omega⟩
          rw [show stringifyV (JSVal.jbool false) ++ rest =
            'f' :: 'a' :: 'l' :: 's' :: 'e' :: rest from by simp [stringifyV]]
          simp [parseV]
      | jnum n =>
        cases n with
        | ofNat m =>
          have hsv : stringifyV (JSVal.jnum (Int.ofNat m)) = natDigits m := by
            simp [stringifyV, intDigits]
          obtain ⟨c, t, hct, hd⟩ := natDigits_head m
          obtain ⟨hn, ht, hf, hq, hbr, hbrace, hminus, _, _, _⟩ := isDigit_ne_delims hd
          have hl : 1 ≤ (stringifyV (JSVal.jnum (Int.ofNat m))).length := by
            rw [hsv, hct]; simp
          obtain ⟨f, rfl⟩ : ∃ f, fuel = f + 1 := ⟨fuel - 1, by omega⟩
          have hpn : parseNatNum (c :: (t ++ rest)) = some (m, rest) := by
            rw [show c :: (t ++ rest) = natDigits m ++ rest from by rw [hct]; simp]
            exact parseNatNum_natDigits m rest hrest
          rw [hsv, hct]
          simp only [List.cons_append]
          simp [parseV, hn, ht, hf, hq, hbr, hbrace, hminus, hd, hpn]
        | negSucc m =>
          have hsv : stringifyV (JSVal.jnum (Int.negSucc m)) = '-' :: natDigits (m + 1) := by
            simp [stringifyV, intDigits]
          have hl : 1 ≤ (stringifyV (JSVal.jnum (Int.negSucc m))).length := by
            rw [hsv]; simp
          obtain ⟨f, rfl⟩ : ∃ f, fuel = f + 1 := ⟨fuel - 1, by omega⟩
          rw [hsv]
          simp only [List.cons_append]
          simp [parseV, parseNatNum_natDigits (m + 1) rest hrest]
          rw [Int.negSucc_eq]
          ring
      | jstr s =>
        obtain ⟨f, rfl⟩ : ∃ f, fuel = f + 1 := ⟨fuel - 1, by
          have : 1 ≤ (stringifyV (JSVal.jstr s)).length := by simp [stringifyV]
          omega⟩
        have hps := parseStringAux_escape s.data [] rest
        simp only [List.reverse_nil, List.nil_append] at hps
        rw [show stringifyV (JSVal.jstr s) ++ rest =
          '"' :: (escapeList s.data ++ '"' :: rest) from by simp [stringifyV]]
        simp [parseV, hps, show String.mk s.data = s from rfl]
      | jarr es =>
        cases es with
        | nil =>
          obtain ⟨f, rfl⟩ : ∃ f, fuel = f + 1 := ⟨fuel - 1, by
            have : (stringifyV (JSVal.jarr [])).length = 2 := by simp [stringifyV, stringifyElems]
            omega⟩
          rw [show stringifyV (JSVal.jarr []) ++ rest = '[' :: ']' :: rest from by
            simp [stringifyV, stringifyElems]]
          simp [parseV]
        | cons v vs =>
          have hlarr : (stringifyV (JSVal.jarr (v :: vs))).length =
              (stringifyElems (v :: vs)).length + 2 := by
            simp [stringifyV]
          obtain ⟨f, rfl⟩ : ∃ f, fuel = f + 1 := ⟨fuel - 1, by omega⟩
          obtain ⟨c1, t1, hct1, hne1⟩ := stringifyElems_head v vs
          have hinput : stringifyElems (v :: vs) ++ ']' :: rest = c1 :: (t1 ++ ']' :: rest) := by
            rw [hct1]; simp
          have hpe : parseElems f (c1 :: (t1 ++ ']' :: rest)) = some (v :: vs, rest) := by
            rw [← hinput]
            exact (ih f (by omega)).2.1 (v :: vs) rest (by simp) (by omega)
          rw [show stringifyV (JSVal.jarr (v :: vs)) ++ rest =
            '[' :: (c1 :: (t1 ++ ']' :: rest)) from by
              rw [← hinput]; simp [stringifyV]]
          simp [parseV, hne1, hpe]
      | jobj fs =>
        cases fs with
        | nil =>
          obtain ⟨f, rfl⟩ : ∃ f, fuel = f + 1 := ⟨fuel - 1, by
            have : (stringifyV (JSVal.jobj [])).length = 2 := by simp [stringifyV, stringifyFields]
            omega⟩
          rw [show stringifyV (JSVal.jobj []) ++ rest = '\x7b' :: '\x7d' :: rest from by
            simp [stringifyV, stringifyFields]]
          simp [parseV]
        | cons kv fs2 =>
          have hlobj : (stringifyV (JSVal.jobj (kv :: fs2))).length =
              (stringifyFields (kv :: fs2)).length + 2 := by
            simp [stringifyV]
          obtain ⟨f, rfl⟩ : ∃ f, fuel = f + 1 := ⟨fuel - 1, by omega⟩
          obtain ⟨t1, hct1⟩ := stringifyFields_head kv fs2
          have hinput : stringifyFields (kv :: fs2) ++ '\x7d' :: rest =
              '"' :: (t1 ++ '\x7d' :: rest) := by
            rw [hct1]; simp
          have hpf : parseFields f ('"' :: (t1 ++ '\x7d' :: rest)) = some (kv :: fs2, rest) := by
            rw [← hinput]
            exact (ih f (by omega)).2.2 (kv :: fs2) rest (by simp) (by omega)
          rw [show stringifyV (JSVal.jobj (kv :: fs2)) ++ rest =
            '\x7b' :: ('"' :: (t1 ++ '\x7d' :: rest)) from by
              rw [← hinput]; simp [stringifyV]]
          simp [parseV, hpf]
    · -- parseElems on a printed nonempty element list
      intro es rest hne hfuel
      cases es with
      | nil => exact absurd rfl hne
      | cons v vs =>
        obtain ⟨f, rfl⟩ : ∃ f, fuel = f + 1 := ⟨fuel - 1, by omega⟩
        cases vs with
        | nil =>
          have hle : (stringifyElems [v]).length = (stringifyV v).length := by
            simp [stringifyElems]
          have hpv : parseV f (stringifyV v ++ ']' :: rest) = some (v, ']' :: rest) :=
            (ih f (by omega)).1 v (']' :: rest) (by omega) (by rfl)
          rw [show stringifyElems [v] ++ ']' :: rest = stringifyV v ++ ']' :: rest from by
            simp [stringifyElems]]
          rw [parseElems.eq_def]
          simp [hpv]
        | cons w ws =>
          have hle : (stringifyElems (v :: w :: ws)).length =
              (stringifyV v).length + 1 + (stringifyElems (w :: ws)).length := by
            rw [show stringifyElems (v :: w :: ws) =
              stringifyV v ++ ',' :: stringifyElems (w :: ws) from by simp [stringifyElems]]
            simp
            omega
          have hpv : parseV f
              (stringifyV v ++ ',' :: (stringifyElems (w :: ws) ++ ']' :: rest)) =
              some (v, ',' :: (stringifyElems (w :: ws) ++ ']' :: rest)) :=
            (ih f (by omega)).1 v _ (by omega) (by rfl)
          have hpe : parseElems f (stringifyElems (w :: ws) ++ ']' :: rest) =
              some (w :: ws, rest) :=
            (ih f (by omega)).2.1 (w :: ws) rest (by simp) (by omega)
          rw [show stringifyElems (v :: w :: ws) ++ ']' :: rest =
            stringifyV v ++ ',' :: (stringifyElems (w :: ws) ++ ']' :: rest) from by
              rw [show stringifyElems (v :: w :: ws) =
                stringifyV v ++ ',' :: stringifyElems (w :: ws) from by simp [stringifyElems]]
              simp]
          rw [parseElems.eq_def]
          simp [hpv, hpe]
    · -- parseFields on a printed nonempty field list
      intro fs rest hne hfuel
      cases fs with
      | nil => exact absurd rfl hne
      | cons kv fs2 =>
        obtain ⟨k, v⟩ := kv
        obtain ⟨f, rfl⟩ : ∃ f, fuel = f + 1 := ⟨fuel - 1, by omega⟩
        cases fs2 with
        | nil =>
          have hlf : (stringifyFields [(k, v)]).length =
              (escapeList k.toList).length + 3 + (stringifyV v).length := by
            simp [stringifyFields]
            omega
          have hps := parseStringAux_escape k.data []
            (':' :: (stringifyV v ++ '\x7d' :: rest))
          simp only [List.reverse_nil, List.nil_append] at hps
          have hpv : parseV f (stringifyV v ++ '\x7d' :: rest) = some (v, '\x7d' :: rest) :=
            (ih f (by omega)).1 v ('\x7d' :: rest) (by omega) (by rfl)
          rw [show stringifyFields [(k, v)] ++ '\x7d' :: rest =
            '"' :: (escapeList k.data ++ '"' ::
              (':' :: (stringifyV v ++ '\x7d' :: rest))) from by
              simp [stringifyFields]]
          rw [parseFields.eq_def]
          simp [hps, hpv, show String.mk k.data = k from rfl]
        | cons f2 fs3 =>
          have hlf : (stringifyFields ((k, v) :: f2 :: fs3)).length =
              (escapeList k.toList).length + 3 + (stringifyV v).length + 1 +
                (stringifyFields (f2 :: fs3)).length := by
            rw [show stringifyFields ((k, v) :: f2 :: fs3) =
              ('"' :: (escapeList k.toList ++ '"' :: ':' :: stringifyV v)) ++
                ',' :: stringifyFields (f2 :: fs3) from by simp [stringifyFields]]
            simp
            omega
          have hps := parseStringAux_escape k.data []
            (':' :: (stringifyV v ++ ',' :: (stringifyFields (f2 :: fs3) ++ '\x7d' :: rest)))
          simp only [List.reverse_nil, List.nil_append] at hps
          have hpv : parseV f
              (stringifyV v ++ ',' :: (stringifyFields (f2 :: fs3) ++ '\x7d' :: rest)) =
              some (v, ',' :: (stringifyFields (f2 :: fs3) ++ '\x7d' :: rest)) :=
            (ih f (by omega)).1 v _ (by omega) (by rfl)
          have hpf : parseFields f (stringifyFields (f2 :: fs3) ++ '\x7d' :: rest) =
              some (f2 :: fs3, rest) :=
            (ih f (by omega)).2.2 (f2 :: fs3) rest (by simp) (by omega)
          rw [show stringifyFields ((k, v) :: f2 :: fs3) ++ '\x7d' :: rest =
            '"' :: (escapeList k.data ++ '"' ::
              (':' :: (stringifyV v ++
                ',' :: (stringifyFields (f2 :: fs3) ++ '\x7d' :: rest)))) from by
              rw [show stringifyFields ((k, v) :: f2 :: fs3) =
                ('"' :: (escapeList k.toList ++ '"' :: ':' :: stringifyV v)) ++
                  ',' :: stringifyFields (f2 :: fs3) from by simp [stringifyFields]]
              simp]
          rw [parseFields.eq_def]
          simp [hps, hpv, hpf, show String.mk k.data = k from rfl]

/-- `JSON.parse` is a left inverse of `JSON.stringify` on the value model. -/
theorem jsonParse_stringify (v : JSVal) : jsonParse (jsonStringify v) = some v := by
  unfold jsonParse jsonStringify
  have hl : (String.mk (stringifyV v)).toList = stringifyV v := rfl
  rw [hl]
  have h := (parse_stringify (2 * (stringifyV v).length + 2)).1 v [] (by omega) rfl
  rw [List.append_nil] at h
  rw [h]

/-- C9 counterexample: the plain scalar string `"123"` does not round-trip
through `set` followed by `get` — `set` stores it raw (the `is-json`
heuristic rejects it) and `get`'s opportunistic `JSON.parse` then succeeds,
so the caller gets back the *number* 123 instead of the original string. -/
theorem set_get_string_altered_cex :
    setGetRoundTrip (JSVal.jstr "123") = JSVal.jnum 123 ∧
    JSVal.jnum 123 ≠ JSVal.jstr "123" :=
  ⟨rfl, fun h => JSVal.noConfusion h⟩

/-- C9 (amended): `set` followed by `get` round-trips every structured value
(array or object) unchanged through JSON encoding and decoding; a plain
scalar string round-trips without alteration exactly when the string is not
itself parseable as JSON text — a string that parses (such as `"123"`) is
returned as the decoded value instead. -/
theorem set_get_roundtrip_amended :
    (∀ es : List JSVal, setGetRoundTrip (JSVal.jarr es) = JSVal.jarr es) ∧
    (∀ fs : List (String × JSVal), setGetRoundTrip (JSVal.jobj fs) = JSVal.jobj fs) ∧
    (∀ s : String, jsonParse s = none → setGetRoundTrip (JSVal.jstr s) = JSVal.jstr s) := by
  refine ⟨?_, ?_, ?_⟩
  · intro es
    have h := jsonParse_stringify (JSVal.jarr es)
    simp [setGetRoundTrip, encodeValue, getDecode, h]
  · intro fs
    have h := jsonParse_stringify (JSVal.jobj fs)
    simp [setGetRoundTrip, encodeValue, isJSONHeuristic, getDecode, h]
  · intro s hs
    simp [setGetRoundTrip, encodeValue, isJSONHeuristic, rawString, getDecode, hs]

/-- Witness for C9 (amended) at a concrete array, object and
non-JSON-parseable string. -/
theorem set_get_roundtrip_amended_witness :
    setGetRoundTrip (JSVal.jarr [JSVal.jnum 1, JSVal.jstr "a"]) =
      JSVal.jarr [JSVal.jnum 1, JSVal.jstr "a"] ∧
    setGetRoundTrip (JSVal.jobj [("k", JSVal.jbool true)]) =
      JSVal.jobj [("k", JSVal.jbool true)] ∧
    setGetRoundTrip (JSVal.jstr "hello") = JSVal.jstr "hello" :=
  ⟨set_get_roundtrip_amended.1 _, set_get_roundtrip_amended.2.1 _,
    set_get_roundtrip_amended.2.2 "hello" rfl⟩

end NodeCacheRedis
